import Mathlib

/-! Verification of the Ragnarok retrieval subsystem.

The development shallowly embeds the JavaScript sources:
* `embeddingService.js` — deterministic fallback embedding, batch embedding,
  cosine similarity, nearest-neighbour ranking;
* `fileProcessor.js` — `chunkText` (overlapping chunker);
* `vectorStore.js` — the in-memory `VectorStore` (add/search/remove/stats);
* `langchainService.js` — the RAG prompt construction.

Numbers: JavaScript floats are modelled as exact arithmetic (`ℚ` for the
integer/hash pipeline and data vectors, `ℝ` where `Math.sqrt` appears).
`Math.sin` is modelled as an arbitrary function `sinFn : ℤ → ℚ` (its value at
the integer seeds is all the code observes).  External capabilities (the
remote embedding API, the hosted LLM) are parameters returning `Except`.
-/

namespace Ragnarok

/-- JavaScript `ToInt32`: reduce an integer into `[-2^31, 2^31)`. -/
def toInt32 (n : Int) : Int :=
  (n + 2 ^ 31) % 2 ^ 32 - 2 ^ 31

/-- The rolling 32-bit hash of `generateSimpleEmbedding`
(`hash = ((hash << 5) - hash) + charCode; hash = hash & hash`).
`hash << 5` first wraps `hash * 32` to 32 bits, the final `& hash` wraps the
float subtraction/addition result back to 32 bits. -/
def jsHashString (text : String) : Int :=
  text.data.foldl (fun h c => toInt32 (toInt32 (h * 32) - h + c.toNat)) 0

/-- Model of `generateSimpleEmbedding` (embeddingService.js:44-64): the deterministic
hash-based fallback embedding.  For each of the 384 dimensions,
`seed = hash + i * 7919`, `value = Math.sin(seed) * 10000`,
`embedding[i] = (value - Math.floor(value)) * 2 - 1`.
`Math.sin` at the integer seed is the parameter `sinFn`. -/
def generateSimpleEmbedding (sinFn : Int → ℚ) (text : String) : List ℚ :=
  let hash := jsHashString text
  (List.range 384).map fun (i : Nat) =>
    Int.fract (sinFn (hash + (i : Int) * 7919) * 10000) * 2 - 1

/-- Whitespace as recognised by JavaScript `String.prototype.trim`
(restricted to the ASCII whitespace characters that occur in practice). -/
def isJsWhitespace (c : Char) : Bool :=
  c == ' ' || c == '\t' || c == '\n' || c == '\r' || c == '\x0b' || c == '\x0c'

/-- JavaScript `trim` on a character list: drop leading and trailing
whitespace. -/
def jsTrimChars (s : List Char) : List Char :=
  ((s.dropWhile isJsWhitespace).reverse.dropWhile isJsWhitespace).reverse

/-- JavaScript `String.prototype.trim`. -/
def jsTrim (s : String) : String :=
  ⟨jsTrimChars s.data⟩

/-- Configuration of the embedding provider (embeddingService.js):
`sinFn` models `Math.sin` for the fallback, `apiKey = none` models a missing,
blank or placeholder Hugging Face key, and `remoteEmbed` models a
`hf.featureExtraction` call (already normalised to a flat vector, or a
failure). -/
structure EmbedConfig where
  sinFn : Int → ℚ
  apiKey : Option String
  remoteEmbed : String → Except String (List ℚ)

/-- Model of `generateEmbedding` (embeddingService.js:71-101): rejects blank text,
otherwise embeds `text.trim()`; with no API key, or when the remote call
fails, it falls back to `generateSimpleEmbedding`. -/
def generateEmbedding (cfg : EmbedConfig) (text : String) : Except String (List ℚ) :=
  if text = "" ∨ jsTrim text = "" then
    .error "Failed to generate embedding: Text cannot be empty"
  else
    match cfg.apiKey with
    | none => .ok (generateSimpleEmbedding cfg.sinFn (jsTrim text))
    | some _ =>
      match cfg.remoteEmbed (jsTrim text) with
      | .ok v => .ok v
      | .error _ => .ok (generateSimpleEmbedding cfg.sinFn (jsTrim text))

/-- The sequential loop of `generateBatchEmbeddings` (embeddingService.js:
129-140): each text is embedded by `generateEmbedding`; a failure degrades to
`generateSimpleEmbedding` of the untrimmed text. -/
def batchLoop (cfg : EmbedConfig) : List String → List (List ℚ)
  | [] => []
  | t :: ts =>
    (match generateEmbedding cfg t with
     | .ok e => e
     | .error _ => generateSimpleEmbedding cfg.sinFn t) :: batchLoop cfg ts

/-- The validity filter of `generateBatchEmbeddings`
(`texts.filter(text => text && text.trim().length > 0)`). -/
def isValidText (t : String) : Bool :=
  !(t == "") && !(jsTrim t == "")

/-- Model of `generateBatchEmbeddings` (embeddingService.js:108-146): drops blank
texts, then embeds the remaining texts in input order — via
`generateSimpleEmbedding` directly when no API key is configured, otherwise
via the sequential per-text loop. -/
def generateBatchEmbeddings (cfg : EmbedConfig) (texts : List String) : List (List ℚ) :=
  let validTexts := texts.filter isValidText
  match cfg.apiKey with
  | none => validTexts.map (generateSimpleEmbedding cfg.sinFn)
  | some _ => batchLoop cfg validTexts

/-- One step of the batch loop: embed a text, degrading to the fallback
embedding of the untrimmed text on failure (embeddingService.js:131-139). -/
def embedOrFallback (cfg : EmbedConfig) (t : String) : List ℚ :=
  match generateEmbedding cfg t with
  | .ok e => e
  | .error _ => generateSimpleEmbedding cfg.sinFn t

/-- What `generateBatchEmbeddings` produces for a single retained text,
depending on whether an API key is configured. -/
def batchEmbedOne (cfg : EmbedConfig) (t : String) : List ℚ :=
  match cfg.apiKey with
  | none => generateSimpleEmbedding cfg.sinFn t
  | some _ => embedOrFallback cfg t

/-! The chunker (`chunkText`, fileProcessor.js:112-144). Text is a character
list, positions are integers (JavaScript `lastIndexOf` returns `-1`), the
float literal `0.7` is the exact `7/10`, and the `while` loop is modelled
with explicit fuel: `none` means the fuel ran out before the loop finished. -/
/-- JavaScript `text.lastIndexOf(c, fromIdx)` for a single character: the
largest index `i ≤ fromIdx` with `text[i] = c`, or `-1`; a negative
`fromIdx` is clamped to `0`. -/
def jsLastIndexOf (s : List Char) (c : Char) (fromIdx : Int) : Int :=
  let limit : Int := if fromIdx < 0 then 0 else fromIdx
  (List.range s.length).foldl
    (fun (acc : Int) (i : Nat) =>
      if (i : Int) ≤ limit ∧ s[i]? = some c then max acc (i : Int) else acc)
    (-1)

/-- The window-end computation of one `chunkText` iteration
(fileProcessor.js:121-134): `end = start + maxChunkSize`, and if that lies
inside the text, move `end` to just after the best breakpoint
(`Math.max` of the last period, newline and space at or before `end`)
whenever that breakpoint lies beyond `start + maxChunkSize * 0.7`. -/
def computeEnd (text : List Char) (maxChunkSize : Nat) (start : Int) : Int :=
  let end0 := start + maxChunkSize
  if end0 < (text.length : Int) then
    let lastPeriod := jsLastIndexOf text '.' end0
    let lastNewline := jsLastIndexOf text '\n' end0
    let lastSpace := jsLastIndexOf text ' ' end0
    let breakPoint := max lastPeriod (max lastNewline lastSpace)
    if (breakPoint : ℚ) > (start : ℚ) + (maxChunkSize : ℚ) * (7 / 10) then
      breakPoint + 1
    else end0
  else end0

/-- The `while (start < text.length)` loop of `chunkText`, recording the
`(start, end)` window of every emitted chunk.  Each iteration computes `end`,
pushes the window, sets `start = end - overlap` and breaks once
`start ≥ text.length`. -/
def chunkWindowsLoop (text : List Char) (maxChunkSize overlap : Nat) :
    Nat → Int → Option (List (Int × Int))
  | 0, _ => none
  | fuel + 1, start =>
    let e := computeEnd text maxChunkSize start
    let start' := e - overlap
    if (text.length : Int) ≤ start' then some [(start, e)]
    else (chunkWindowsLoop text maxChunkSize overlap fuel start').map
      (fun ws => (start, e) :: ws)

/-- The windows produced by `chunkText` on a text longer than
`maxChunkSize` (the loop starts at `start = 0`). -/
def chunkWindows (text : List Char) (maxChunkSize overlap fuel : Nat) :
    Option (List (Int × Int)) :=
  chunkWindowsLoop text maxChunkSize overlap fuel 0

/-- JavaScript `text.slice(a, b)` on a character list: negative indices
count from the end, then the range is clamped to the text. -/
def jsSlice (s : List Char) (a b : Int) : List Char :=
  let len : Int := s.length
  let f := (if a < 0 then max (len + a) 0 else min a len).toNat
  let t := (if b < 0 then max (len + b) 0 else min b len).toNat
  (s.take t).drop f

/-- Model of `chunkText` (fileProcessor.js:112-144): texts no longer than
`maxChunkSize` are returned whole as a single chunk; otherwise each window
is sliced out, trimmed, and empty chunks are filtered at the end. -/
def chunkText (text : List Char) (maxChunkSize overlap fuel : Nat) :
    Option (List (List Char)) :=
  if text.length ≤ maxChunkSize then some [text]
  else (chunkWindows text maxChunkSize overlap fuel).map fun ws =>
    (ws.map fun w => jsTrimChars (jsSlice text w.1 w.2)).filter
      (fun piece => piece.length > 0)

/-- The number of literally shared characters between consecutive chunks:
the largest `n` for which the last `n` characters of the first chunk equal
the first `n` characters of the second. -/
def sharedOverlapCount (c1 c2 : List Char) : Nat :=
  (List.range (min c1.length c2.length + 1)).foldl
    (fun acc n => if c1.drop (c1.length - n) = c2.take n then max acc n else acc) 0

/-! The in-memory vector store (vectorStore.js).  JavaScript `Map`s are
modelled as insertion-ordered association lists: `set` overwrites in place or
appends, `delete` filters, `size` is the list length (keys stay distinct
under these operations), and `this.index` is a plain list.  The file
metadata object is opaque to the store, so it is carried as an abstract
`String` blob.  The batch embedder is a capability parameter
(`generateBatchEmbeddings`, whose remote path may reject). -/
/-- Opaque file metadata blob (`fileMetadata` — never inspected). -/
abbrev FileMetadata := String

/-- JavaScript `Map.prototype.set`: overwrite in place, else append. -/
def jsMapSet {α : Type} (m : List (String × α)) (k : String) (v : α) :
    List (String × α) :=
  if m.any (fun p => p.1 == k) then
    m.map (fun p => if p.1 == k then (k, v) else p)
  else m ++ [(k, v)]

/-- JavaScript `Map.prototype.get` (as an `Option`). -/
def jsMapGet {α : Type} (m : List (String × α)) (k : String) : Option α :=
  (m.find? (fun p => p.1 == k)).map (·.2)

/-- JavaScript `Map.prototype.delete`. -/
def jsMapDelete {α : Type} (m : List (String × α)) (k : String) :
    List (String × α) :=
  m.filter (fun p => !(p.1 == k))

/-- Document record stored in `this.documents` (vectorStore.js:27-33). -/
structure Document where
  id : String
  metadata : FileMetadata
  chunkIds : List String
  totalChunks : Nat
deriving DecidableEq

/-- Chunk record stored in `this.chunks` (vectorStore.js:42-52). -/
structure ChunkData where
  id : String
  fileId : String
  text : String
  index : Nat
  metadata : FileMetadata
  metaChunkIndex : Nat
  metaTotalChunks : Nat
deriving DecidableEq

/-- JavaScript `text.substring(0, 100) + '...'` — the preview put in index metadata. -/
def jsPreview (t : String) : String :=
  String.mk (t.data.take 100) ++ "..."

/-- Search index entry pushed by `addDocument` (vectorStore.js:58-67). -/
structure IndexEntry where
  chunkId : String
  embedding : List ℚ
  fileId : String
  metadata : FileMetadata
  metaChunkIndex : Nat
  previewText : String
deriving DecidableEq

/-- The `VectorStore` state (vectorStore.js:7-12). -/
structure VectorStore where
  documents : List (String × Document)
  chunks : List (String × ChunkData)
  embeddings : List (String × List ℚ)
  index : List IndexEntry
deriving DecidableEq

/-- A freshly constructed store. -/
def emptyStore : VectorStore :=
  { documents := [], chunks := [], embeddings := [], index := [] }

/-- Chunk identifiers are derived from the file id and the ordinal. -/
def chunkIdOf (fileId : String) (i : Nat) : String :=
  fileId ++ "_chunk_" ++ toString i

/-- One iteration of the `addDocument` chunk loop (vectorStore.js:37-68):
store the chunk record, the embedding, and push a search-index entry.
A missing embedding (JavaScript `embeddings[i]` = `undefined` when the batch
dropped blank chunks) is modelled as `[]`. -/
def addChunkStep (fileId : String) (meta : FileMetadata)
    (textChunks : List String) (embs : List (List ℚ))
    (s : VectorStore) (i : Nat) : VectorStore :=
  let cid := chunkIdOf fileId i
  let text := textChunks.getD i ""
  let emb := embs.getD i []
  let chunkRec : ChunkData :=
    { id := cid, fileId := fileId, text := text, index := i,
      metadata := meta, metaChunkIndex := i,
      metaTotalChunks := textChunks.length }
  let indexRec : IndexEntry :=
    { chunkId := cid, embedding := emb, fileId := fileId,
      metadata := meta, metaChunkIndex := i, previewText := jsPreview text }
  { s with
    chunks := jsMapSet s.chunks cid chunkRec,
    embeddings := jsMapSet s.embeddings cid emb,
    index := s.index ++ [indexRec] }

/-- Model of `VectorStore.addDocument` (vectorStore.js:21-79): first `await` the batch
embeddings — any rejection aborts before a single mutation — then store the
document record, every chunk/embedding/index entry, and finally write the
chunk-id list back into the document. -/
def addDocument (embedBatch : List String → Except String (List (List ℚ)))
    (s : VectorStore) (fileId : String) (meta : FileMetadata)
    (textChunks : List String) : Except String VectorStore :=
  match embedBatch textChunks with
  | .error e => .error e
  | .ok embs =>
    let docRec : Document :=
      { id := fileId, metadata := meta, chunkIds := [],
        totalChunks := textChunks.length }
    let s1 : VectorStore :=
      { s with documents := jsMapSet s.documents fileId docRec }
    let s2 := (List.range textChunks.length).foldl
      (addChunkStep fileId meta textChunks embs) s1
    let chunkIds := (List.range textChunks.length).map (chunkIdOf fileId)
    let doc := (jsMapGet s2.documents fileId).getD docRec
    let doc' : Document := { doc with chunkIds := chunkIds }
    .ok { s2 with documents := jsMapSet s2.documents fileId doc' }

/-- Model of `VectorStore.removeDocument` (vectorStore.js:148-167): no-op for an
unknown id; otherwise delete every owned chunk and embedding, filter the
search index by file id, and delete the document record. -/
def removeDocument (s : VectorStore) (fileId : String) : VectorStore :=
  match jsMapGet s.documents fileId with
  | none => s
  | some doc =>
    { chunks := doc.chunkIds.foldl jsMapDelete s.chunks,
      embeddings := doc.chunkIds.foldl jsMapDelete s.embeddings,
      index := s.index.filter (fun it => !(it.fileId == fileId)),
      documents := jsMapDelete s.documents fileId }

/-- Nested `memoryUsage` record of `getStats`. -/
structure MemoryUsage where
  documents : Nat
  chunks : Nat
  embeddings : Nat
deriving DecidableEq

/-- Result of `VectorStore.getStats` (vectorStore.js:173-185). -/
structure StoreStats where
  totalDocuments : Nat
  totalChunks : Nat
  totalEmbeddings : Nat
  indexSize : Nat
  memoryUsage : MemoryUsage
deriving DecidableEq

/-- Model of `VectorStore.getStats`. -/
def getStats (s : VectorStore) : StoreStats :=
  { totalDocuments := s.documents.length,
    totalChunks := s.chunks.length,
    totalEmbeddings := s.embeddings.length,
    indexSize := s.index.length,
    memoryUsage :=
      { documents := s.documents.length,
        chunks := s.chunks.length,
        embeddings := s.embeddings.length * 1536 * 4 } }

/-- Model of `VectorStore.hasDocument`. -/
def hasDocument (s : VectorStore) (fileId : String) : Bool :=
  s.documents.any (fun p => p.1 == fileId)

/-- Model of `VectorStore.listDocuments`. -/
def listDocuments (s : VectorStore) : List Document :=
  s.documents.map (·.2)

/-! Search (vectorStore.js:88-125 and `findSimilarChunks`,
embeddingService.js:186-210).  Similarity scores are JavaScript numbers; the
development is generic in a linearly ordered score type `Score` and in the
similarity function `sim` (instantiated by cosine similarity in the code),
because the ranking logic only compares scores.  JavaScript
`Array.prototype.sort` is stable, so the comparator
`(a, b) => b.similarity - a.similarity` denotes a stable descending sort by
similarity — modelled by `List.mergeSort`. -/
/-- The per-chunk records handed to `findSimilarChunks`
(vectorStore.js:102-110). -/
structure ChunkForSearch where
  text : String
  embedding : List ℚ
  chunkId : String
  fileId : String
deriving DecidableEq

/-- A chunk with the similarity score and original position that
`findSimilarChunks` attaches (`{...chunk, similarity, index}`). -/
structure ScoredChunk (Score : Type) where
  chunk : ChunkForSearch
  similarity : Score
  index : Nat

/-- All candidates with their scores and original positions. -/
def scoredCandidates {Score : Type} (sim : List ℚ → List ℚ → Score)
    (qe : List ℚ) (chunks : List ChunkForSearch) : List (ScoredChunk Score) :=
  chunks.enum.map fun p =>
    { chunk := p.2, similarity := sim qe p.2.embedding, index := p.1 }

/-- The JavaScript comparator `(a, b) => b.similarity - a.similarity` as a
boolean "may come first" relation: `x` may precede `y` when
`y.similarity ≤ x.similarity`. -/
def simLe {Score : Type} [LinearOrder Score] (x y : ScoredChunk Score) : Bool :=
  decide (y.similarity ≤ x.similarity)

/-- The stable descending sort by similarity
(`similarities.sort((a, b) => b.similarity - a.similarity)`; JavaScript
`sort` is stable). -/
def rankChunks {Score : Type} [LinearOrder Score]
    (sim : List ℚ → List ℚ → Score) (qe : List ℚ)
    (chunks : List ChunkForSearch) : List (ScoredChunk Score) :=
  (scoredCandidates sim qe chunks).mergeSort simLe

/-- Model of `findSimilarChunks` (embeddingService.js:186-210): empty query or empty
candidate list give an empty result; otherwise embed the query, score every
candidate, sort descending by similarity (stably) and keep the first
`topK`. -/
def findSimilarChunks {Score : Type} [LinearOrder Score] (cfg : EmbedConfig)
    (sim : List ℚ → List ℚ → Score) (query : String)
    (chunks : List ChunkForSearch) (topK : Nat) :
    Except String (List (ScoredChunk Score)) :=
  if query = "" ∨ chunks = [] then .ok []
  else
    match generateEmbedding cfg query with
    | .error e => .error e
    | .ok qe => .ok ((rankChunks sim qe chunks).take topK)

/-- The (optionally file-filtered) search index
(vectorStore.js:90-95). -/
def searchCandidates (s : VectorStore) (fileId? : Option String) :
    List IndexEntry :=
  match fileId? with
  | some f => s.index.filter (fun it => it.fileId == f)
  | none => s.index

/-- The index entries converted for `findSimilarChunks`
(vectorStore.js:102-110); a missing chunk text is modelled as `""`. -/
def chunksForSearch (s : VectorStore) (fileId? : Option String) :
    List ChunkForSearch :=
  (searchCandidates s fileId?).map fun it =>
    { text := ((jsMapGet s.chunks it.chunkId).map (·.text)).getD "",
      embedding := it.embedding, chunkId := it.chunkId, fileId := it.fileId }

/-- A search result: the scored chunk plus the joined full chunk and
document records (vectorStore.js:116-120). -/
structure SearchResult (Score : Type) where
  result : ScoredChunk Score
  chunk : Option ChunkData
  document : Option Document

/-- The result enhancement of `search` (vectorStore.js:116-120): join a
scored chunk with its full chunk and document records. -/
def joinResult {Score : Type} (s : VectorStore) (r : ScoredChunk Score) :
    SearchResult Score :=
  { result := r, chunk := jsMapGet s.chunks r.chunk.chunkId,
    document := jsMapGet s.documents r.chunk.fileId }

/-- Model of `VectorStore.search` (vectorStore.js:88-125): empty (possibly filtered)
index gives an empty result; otherwise delegate to `findSimilarChunks` and
join each result with its chunk and document records. -/
def search {Score : Type} [LinearOrder Score] (cfg : EmbedConfig)
    (sim : List ℚ → List ℚ → Score) (s : VectorStore) (query : String)
    (topK : Nat) (fileId? : Option String) :
    Except String (List (SearchResult Score)) :=
  if (searchCandidates s fileId?).length = 0 then .ok []
  else
    match findSimilarChunks cfg sim query (chunksForSearch s fileId?) topK with
    | .error e => .error e
    | .ok results => .ok (results.map (joinResult s))

/-- A concrete fallback-mode embedding configuration. -/
def demoCfg : EmbedConfig :=
  ⟨fun _ => 0, none, fun _ => .error "unconfigured"⟩

/-- The concrete batch embedder: `generateBatchEmbeddings` in fallback
mode, as a total capability. -/
def embedBatchDemo : List String → Except String (List (List ℚ)) :=
  fun ts => .ok (generateBatchEmbeddings demoCfg ts)

/-- The store obtained by ingesting `"d1"` with chunks `["a", "b"]`. -/
def c9Store : VectorStore :=
  (addDocument embedBatchDemo emptyStore "d1" "meta" ["a", "b"]).toOption.getD
    emptyStore

/-- Ingesting `"d1"` twice: first with `["a", "b"]`, then with `["c"]`. -/
def c10Result : Except String VectorStore :=
  (addDocument embedBatchDemo emptyStore "d1" "m1" ["a", "b"]).bind
    (fun s1 => addDocument embedBatchDemo s1 "d1" "m2" ["c"])

/-- Descending-by-similarity, ties in original (insertion) order: the order
that claim C1 asserts for search results.  `index` is the candidate's
position in the (filtered) search index, i.e. insertion order. -/
def lexLe {Score : Type} [LinearOrder Score] (x y : ScoredChunk Score) : Prop :=
  y.similarity < x.similarity ∨
    (y.similarity = x.similarity ∧ x.index ≤ y.index)

/-- A one-chunk store for concrete search checks. -/
def demoChunkRec : ChunkData :=
  { id := "d1_chunk_0", fileId := "d1", text := "alpha", index := 0,
    metadata := "m", metaChunkIndex := 0, metaTotalChunks := 1 }

def demoIndexEntry : IndexEntry :=
  { chunkId := "d1_chunk_0", embedding := [1], fileId := "d1",
    metadata := "m", metaChunkIndex := 0, previewText := "alpha..." }

def demoDoc : Document :=
  { id := "d1", metadata := "m", chunkIds := ["d1_chunk_0"], totalChunks := 1 }

def demoStore : VectorStore :=
  { documents := [("d1", demoDoc)],
    chunks := [("d1_chunk_0", demoChunkRec)],
    embeddings := [("d1_chunk_0", [1])],
    index := [demoIndexEntry] }

/-- A trivial rational-valued similarity, for concrete instantiations. -/
def simZero : List ℚ → List ℚ → ℚ := fun _ _ => 0

/-! The RAG layer (`createRAGChain` / `answerWithLangChain`,
langchainService.js:84-157).  The chain maps the inputs into the prompt
template; the LLM is a capability parameter.  The prompt placeholders
`{date}`, `{context}`, `{input}` are substituted directly, so the prompt is
a concatenation of the fixed template pieces with the three values. -/
/-- A retrieved chunk as seen by the RAG layer: the owning document's
display name (`chunk.document.metadata.name`) and the chunk text. -/
structure RagChunk where
  docName : String
  text : String
deriving DecidableEq

/-- The context block (langchainService.js:107-114): each chunk prefixed
with its document name, joined with a separator; a fixed sentence when no
chunks were retrieved. -/
def buildRAGContext (chunks : List RagChunk) : String :=
  if chunks.length > 0 then
    String.intercalate "\n\n---\n\n"
      (chunks.map fun c => "[" ++ c.docName ++ "]\n" ++ c.text)
  else "No relevant documents found."

/-- Template text before the date. -/
def ragTplHead : String :=
  "\nYou are Ragnarok, an AI assistant that can answer questions using both your general knowledge and provided document context.\n\nToday's date: "

/-- Template text between the date and the context block. -/
def ragTplContext : String :=
  "\n\nContext from uploaded documents:\n"

/-- Template text between the context block and the question. -/
def ragTplQuestion : String :=
  "\n\nQuestion: "

/-- Template text after the question. -/
def ragTplClose : String :=
  "\n\nPlease provide a helpful answer based on both your general knowledge and the document context above. If the question can be answered using the document context, prioritize that information. If not, use your general knowledge to provide a useful response.\n\nAnswer:"

/-- The fully substituted RAG prompt (langchainService.js:87-99 with the
step-1 input map applied). -/
def createRAGPrompt (date : String) (chunks : List RagChunk)
    (question : String) : String :=
  ragTplHead ++ date ++ ragTplContext ++ buildRAGContext chunks ++
    ragTplQuestion ++ question ++ ragTplClose

/-- Model of `answerWithLangChain` (langchainService.js:140-157): reject a blank
question, otherwise invoke the generative capability once on the prompt. -/
def answerWithLangChain (generate : String → Except String String)
    (date : String) (question : String) (chunks : List RagChunk) :
    Except String String :=
  if question = "" ∨ jsTrim question = "" then
    .error "Question cannot be empty"
  else generate (createRAGPrompt date chunks question)

/-- Leading-segment test on character lists. -/
def leadsWith : List Char → List Char → Bool
  | [], _ => true
  | _ :: _, [] => false
  | a :: as, b :: bs => a == b && leadsWith as bs

/-- Substring test on character lists (used to state what the prompt
contains). -/
def containsSub (pat s : List Char) : Bool :=
  (List.range (s.length + 1)).any fun i => leadsWith pat (s.drop i)

/-- The retrieved chunk used in the C8 counterexample. -/
def ragDemoChunk : RagChunk :=
  { docName := "doc.txt", text := "The cat sat." }

/-- Claim C5 — the fallback embedding is deterministic and fixed-length:
two calls on the same text give identical vectors, the vector always has
exactly 384 components, and every component lies in `[-1, 1]`. -/
theorem c5_simple_embedding_deterministic_fixed_length
    (sinFn : Int → ℚ) (text : String) :
    generateSimpleEmbedding sinFn text = generateSimpleEmbedding sinFn text ∧
    (generateSimpleEmbedding sinFn text).length = 384 ∧
    ∀ x ∈ generateSimpleEmbedding sinFn text, -1 ≤ x ∧ x ≤ 1 := by
  refine ⟨rfl, ?_, ?_⟩
  · rw [generateSimpleEmbedding]
    rw [List.length_map, List.length_range]
  · intro x hx
    simp only [generateSimpleEmbedding, List.mem_map, List.mem_range] at hx
    obtain ⟨i, -, rfl⟩ := hx
    constructor
    · have h0 : (0 : ℚ) ≤ Int.fract (sinFn (jsHashString text + (i : Int) * 7919) * 10000) :=
        Int.fract_nonneg _
      linarith
    · have h1 : Int.fract (sinFn (jsHashString text + (i : Int) * 7919) * 10000) < 1 :=
        Int.fract_lt_one _
      linarith

theorem batchLoop_eq_map (cfg : EmbedConfig) (l : List String) :
    batchLoop cfg l = l.map (embedOrFallback cfg) := by
  induction l with
  | nil => rfl
  | cons t ts ih => simp [batchLoop, embedOrFallback, ih]

/-- Claim C4 (amended) — `generateBatchEmbeddings` returns exactly one
embedding per *retained* input element (the inputs surviving the
blank-text filter), in input order; in particular the output length equals
the number of non-blank inputs, not the raw input length. -/
theorem c4_batch_one_embedding_per_valid_text
    (cfg : EmbedConfig) (texts : List String) :
    generateBatchEmbeddings cfg texts =
      (texts.filter isValidText).map (batchEmbedOne cfg) ∧
    (generateBatchEmbeddings cfg texts).length =
      (texts.filter isValidText).length := by
  obtain ⟨sf, key, rem⟩ := cfg
  cases key with
  | none =>
    refine ⟨?_, ?_⟩ <;>
      simp [generateBatchEmbeddings, batchEmbedOne]
  | some k =>
    refine ⟨?_, ?_⟩ <;>
      simp [generateBatchEmbeddings, batchEmbedOne, batchLoop_eq_map]

/-- Claim C4 (counterexample) — on input `["", "a"]` the batch embedder
returns a single embedding, not one per input element: the blank text is
silently dropped, so the output length is 1 while the input length is 2. -/
theorem c4_counterexample_blank_text_dropped :
    (generateBatchEmbeddings
        ⟨fun _ => 0, none, fun _ => .error "unconfigured"⟩ ["", "a"]).length = 1 ∧
    (["", "a"] : List String).length = 2 := by
  constructor
  · rfl
  · rfl

/-- Dot product of two vectors, as accumulated by `cosineSimilarity`
(embeddingService.js:163-167). -/
noncomputable def dotProduct (a b : List ℝ) : ℝ :=
  (List.zipWith (· * ·) a b).sum
/-- Sum of squares of a vector (`normA`/`normB` before the `Math.sqrt`). -/
noncomputable def sumSq (a : List ℝ) : ℝ :=
  dotProduct a a
/-- Model of `cosineSimilarity` (embeddingService.js:154-177): errors on a length
mismatch, returns 0 when either Euclidean norm is 0, otherwise the dot
product divided by the product of the norms. -/
noncomputable def cosineSimilarity (a b : List ℝ) : Except String ℝ :=
  if a.length ≠ b.length then .error "Vectors must have the same length"
  else
    let nA := Real.sqrt (sumSq a)
    let nB := Real.sqrt (sumSq b)
    if nA = 0 ∨ nB = 0 then .ok 0
    else .ok (dotProduct a b / (nA * nB))
theorem cosineSimilarity_zero_norm (a b : List ℝ) (hlen : a.length = b.length)
    (hz : Real.sqrt (sumSq a) = 0 ∨ Real.sqrt (sumSq b) = 0) :
    cosineSimilarity a b = .ok 0 := by
  rw [cosineSimilarity, if_neg (not_not_intro hlen)]
  exact if_pos hz

theorem cosineSimilarity_pos_norm (a b : List ℝ) (hlen : a.length = b.length)
    (hz : ¬(Real.sqrt (sumSq a) = 0 ∨ Real.sqrt (sumSq b) = 0)) :
    cosineSimilarity a b =
      .ok (dotProduct a b / (Real.sqrt (sumSq a) * Real.sqrt (sumSq b))) := by
  rw [cosineSimilarity, if_neg (not_not_intro hlen)]
  exact if_neg hz

theorem sumSq_eq_sum_map (a : List ℝ) :
    sumSq a = (a.map fun x => x * x).sum := by
  rw [sumSq, dotProduct, List.zipWith_same]

theorem sumSq_nonneg (a : List ℝ) : 0 ≤ sumSq a := by
  rw [sumSq_eq_sum_map]
  apply List.sum_nonneg
  intro x hx
  simp only [List.mem_map] at hx
  obtain ⟨y, -, rfl⟩ := hx
  exact mul_self_nonneg y

theorem dotProduct_eq_sum_range (a : List ℝ) :
    ∀ b : List ℝ, a.length = b.length →
      dotProduct a b = ∑ i ∈ Finset.range a.length, a.getD i 0 * b.getD i 0 := by
  induction a with
  | nil =>
    intro b hb
    simp [dotProduct]
  | cons x xs ih =>
    intro b hb
    match b with
    | [] => simp at hb
    | y :: ys =>
      simp only [List.length_cons, Nat.add_right_cancel_iff] at hb
      simp only [dotProduct, List.zipWith_cons_cons, List.sum_cons, List.length_cons]
      rw [Finset.sum_range_succ']
      simp only [List.getD_cons_succ, List.getD_cons_zero]
      rw [← dotProduct, ih ys hb]
      ring

theorem dotProduct_sq_le (a b : List ℝ) (hlen : a.length = b.length) :
    dotProduct a b ^ 2 ≤ sumSq a * sumSq b := by
  have ha : sumSq a = ∑ i ∈ Finset.range a.length, a.getD i 0 * a.getD i 0 :=
    dotProduct_eq_sum_range a a rfl
  have hb : sumSq b = ∑ i ∈ Finset.range b.length, b.getD i 0 * b.getD i 0 :=
    dotProduct_eq_sum_range b b rfl
  have hd := dotProduct_eq_sum_range a b hlen
  rw [hd, ha, hb, ← hlen]
  have := Finset.sum_mul_sq_le_sq_mul_sq (Finset.range a.length)
    (fun i => a.getD i 0) (fun i => b.getD i 0)
  calc (∑ i ∈ Finset.range a.length, a.getD i 0 * b.getD i 0) ^ 2
      ≤ (∑ i ∈ Finset.range a.length, a.getD i 0 ^ 2) *
          ∑ i ∈ Finset.range a.length, b.getD i 0 ^ 2 := this
    _ = (∑ i ∈ Finset.range a.length, a.getD i 0 * a.getD i 0) *
          ∑ i ∈ Finset.range a.length, b.getD i 0 * b.getD i 0 := by
        simp [sq]

theorem abs_dotProduct_le (a b : List ℝ) (hlen : a.length = b.length) :
    |dotProduct a b| ≤ Real.sqrt (sumSq a) * Real.sqrt (sumSq b) := by
  have h1 : |dotProduct a b| = Real.sqrt (dotProduct a b ^ 2) :=
    (Real.sqrt_sq_eq_abs _).symm
  rw [h1, ← Real.sqrt_mul (sumSq_nonneg a)]
  exact Real.sqrt_le_sqrt (dotProduct_sq_le a b hlen)

/-- Claim C6 — for equal-length vectors, `cosineSimilarity` succeeds and
returns the dot product divided by the product of the Euclidean norms
(0 when either norm is 0); the result lies in `[-1, 1]`, and the similarity
of a vector having nonzero norm with itself is 1. -/
theorem c6_cosine_similarity_spec (a b : List ℝ) (hlen : a.length = b.length) :
    ∃ r, cosineSimilarity a b = .ok r ∧ -1 ≤ r ∧ r ≤ 1 ∧
      ((Real.sqrt (sumSq a) = 0 ∨ Real.sqrt (sumSq b) = 0) → r = 0) ∧
      (Real.sqrt (sumSq a) ≠ 0 → Real.sqrt (sumSq b) ≠ 0 →
        r = dotProduct a b / (Real.sqrt (sumSq a) * Real.sqrt (sumSq b))) ∧
      (∀ c : List ℝ, sumSq c ≠ 0 → cosineSimilarity c c = .ok 1) := by
  have hself : ∀ c : List ℝ, sumSq c ≠ 0 → cosineSimilarity c c = .ok 1 := by
    intro c hc
    have hpos : 0 < sumSq c := lt_of_le_of_ne (sumSq_nonneg c) (Ne.symm hc)
    have hs : Real.sqrt (sumSq c) ≠ 0 := by
      intro h0
      rw [Real.sqrt_eq_zero (sumSq_nonneg c)] at h0
      exact hc h0
    rw [cosineSimilarity_pos_norm c c rfl (by tauto)]
    rw [Real.mul_self_sqrt (sumSq_nonneg c), ← sumSq]
    rw [div_self hc]
  by_cases hz : Real.sqrt (sumSq a) = 0 ∨ Real.sqrt (sumSq b) = 0
  · refine ⟨0, cosineSimilarity_zero_norm a b hlen hz,
      by norm_num, by norm_num, fun _ => rfl, ?_, hself⟩
    intro h1 h2
    rcases hz with h | h
    · exact absurd h h1
    · exact absurd h h2
  · have hz' := hz
    push_neg at hz'
    obtain ⟨h1, h2⟩ := hz'
    have hA : 0 < Real.sqrt (sumSq a) :=
      lt_of_le_of_ne (Real.sqrt_nonneg _) (Ne.symm h1)
    have hB : 0 < Real.sqrt (sumSq b) :=
      lt_of_le_of_ne (Real.sqrt_nonneg _) (Ne.symm h2)
    have hAB : 0 < Real.sqrt (sumSq a) * Real.sqrt (sumSq b) := mul_pos hA hB
    have habs := abs_dotProduct_le a b hlen
    refine ⟨dotProduct a b / (Real.sqrt (sumSq a) * Real.sqrt (sumSq b)),
      cosineSimilarity_pos_norm a b hlen hz, ?_, ?_, ?_, fun _ _ => rfl, hself⟩
    · rw [le_div_iff₀ hAB]
      have := neg_abs_le (dotProduct a b)
      linarith
    · rw [div_le_one hAB]
      have := le_abs_self (dotProduct a b)
      linarith
    · intro h
      rcases h with h | h
      · exact absurd h h1
      · exact absurd h h2

/-- Witness for C6 at the concrete input `a = b = [1]`. -/
theorem c6_cosine_similarity_spec_witness :
    ([1] : List ℝ).length = ([1] : List ℝ).length ∧
    (∃ r, cosineSimilarity [1] [1] = .ok r ∧ -1 ≤ r ∧ r ≤ 1 ∧
      ((Real.sqrt (sumSq [1]) = 0 ∨ Real.sqrt (sumSq [1]) = 0) → r = 0) ∧
      (Real.sqrt (sumSq [1]) ≠ 0 → Real.sqrt (sumSq [1]) ≠ 0 →
        r = dotProduct [1] [1] /
          (Real.sqrt (sumSq [1]) * Real.sqrt (sumSq [1]))) ∧
      (∀ c : List ℝ, sumSq c ≠ 0 → cosineSimilarity c c = .ok 1)) :=
  ⟨rfl, c6_cosine_similarity_spec [1] [1] rfl⟩

theorem computeEnd_aaaa : computeEnd ['a', 'a', 'a', 'a'] 2 0 = 2 := by
  have hp : jsLastIndexOf ['a', 'a', 'a', 'a'] '.' 2 = -1 := by decide
  have hn : jsLastIndexOf ['a', 'a', 'a', 'a'] '\n' 2 = -1 := by decide
  have hs : jsLastIndexOf ['a', 'a', 'a', 'a'] ' ' 2 = -1 := by decide
  rw [computeEnd]
  norm_num [hp, hn, hs]

theorem c3_loop_stuck (fuel : Nat) :
    chunkWindowsLoop ['a', 'a', 'a', 'a'] 2 2 fuel 0 = none := by
  induction fuel with
  | zero => rfl
  | succ n ih =>
    rw [chunkWindowsLoop]
    simp only [computeEnd_aaaa]
    norm_num
    simp [ih]

/-- Claim C3 — refuted on the code: with `overlap = maxChunkSize = 2` and
the 4-character text `"aaaa"`, the window end never advances past 2 and
`start` stays at 0, so the loop never terminates (the fueled model returns
`none` for every fuel).  The code has no guard forcing `end` to strictly
increase, contrary to the claim. -/
theorem c3_chunkText_loops_on_overlap_ge_maxsize :
    ∀ fuel : Nat, chunkText ['a', 'a', 'a', 'a'] 2 2 fuel = none := by
  intro fuel
  rw [chunkText]
  rw [if_neg (by norm_num)]
  rw [chunkWindows, c3_loop_stuck]
  rfl

/-- Every window end lies strictly beyond `start + maxChunkSize * 0.7`:
the hard boundary `start + maxChunkSize` does, and a breakpoint is only
taken when it lies beyond that threshold. -/
theorem computeEnd_lb (text : List Char) (m : Nat) (hm : 1 ≤ m) (start : Int) :
    (start : ℚ) + (m : ℚ) * (7 / 10) < ((computeEnd text m start : Int) : ℚ) := by
  have hm' : (1 : ℚ) ≤ (m : ℚ) := by exact_mod_cast hm
  simp only [computeEnd]
  split_ifs with h1 h2
  · push_cast at h2 ⊢
    linarith
  · push_cast
    linarith
  · push_cast
    linarith

/-- Structure of a successful run of the chunk loop: the head window starts
at `start`, every recorded end is `computeEnd` of its start, consecutive
windows satisfy `nextStart = end - overlap`, and (when
`overlap ≤ maxChunkSize * 0.7`) the starts never move backwards. -/
theorem chunkWindowsLoop_invariant (text : List Char) (m ov : Nat)
    (hm : 1 ≤ m) (hov : (ov : ℚ) ≤ (m : ℚ) * (7 / 10)) :
    ∀ (fuel : Nat) (start : Int) (ws : List (Int × Int)),
      chunkWindowsLoop text m ov fuel start = some ws →
      ws.head? = some (start, computeEnd text m start) ∧
      (∀ w ∈ ws, w.2 = computeEnd text m w.1) ∧
      List.Chain' (fun w1 w2 => w2.1 = w1.2 - (ov : Int)) ws ∧
      ∀ w ∈ ws, start ≤ w.1 := by
  intro fuel
  induction fuel with
  | zero => intro start ws h; exact absurd h (by simp [chunkWindowsLoop])
  | succ n ih =>
    intro start ws h
    rw [chunkWindowsLoop] at h
    by_cases hbr : (text.length : Int) ≤ computeEnd text m start - (ov : Int)
    · rw [if_pos hbr] at h
      obtain rfl : [(start, computeEnd text m start)] = ws := by
        simpa using h
      refine ⟨rfl, ?_, ?_, ?_⟩
      · intro w hw; simp only [List.mem_singleton] at hw; subst hw; rfl
      · simp
      · intro w hw; simp only [List.mem_singleton] at hw; subst hw; exact le_refl _
    · rw [if_neg hbr] at h
      rw [Option.map_eq_some'] at h
      obtain ⟨ws', hws', rfl⟩ := h
      obtain ⟨hhead, hends, hchain, hmono⟩ :=
        ih (computeEnd text m start - (ov : Int)) ws' hws'
      have hstep : start ≤ computeEnd text m start - (ov : Int) := by
        have := computeEnd_lb text m hm start
        have : (start : ℚ) ≤ ((computeEnd text m start - (ov : Int) : Int) : ℚ) := by
          push_cast
          linarith
        exact_mod_cast this
      refine ⟨rfl, ?_, ?_, ?_⟩
      · intro w hw
        rcases List.mem_cons.mp hw with h | h
        · subst h; rfl
        · exact hends w h
      · rw [List.chain'_cons']
        refine ⟨?_, hchain⟩
        intro y hy
        have : ws'.head? = some y := hy
        rw [hhead] at this
        obtain rfl : (computeEnd text m start - (ov : Int),
            computeEnd text m (computeEnd text m start - (ov : Int))) = y := by
          simpa using this
        rfl
      · intro w hw
        rcases List.mem_cons.mp hw with h | h
        · subst h; exact le_refl _
        · exact le_trans hstep (hmono w h)

/-- Splitting a clamped slice at an intermediate position. -/
theorem take_drop_split (s : List Char) (na nb nc : Nat)
    (h1 : na ≤ nb) (h2 : nb ≤ nc) (h3 : na ≤ s.length) :
    (s.take nc).drop na = ((s.take nb).drop na) ++ ((s.take nc).drop nb) := by
  have hx : s.take nb = (s.take nc).take nb := by
    rw [List.take_take, min_eq_left h2]
  rw [hx]
  set l := s.take nc with hl
  have hlen : na ≤ (l.take nb).length := by
    simp only [hl, List.length_take, List.length_take]
    omega
  conv_lhs => rw [← List.take_append_drop nb l]
  rw [List.drop_append_eq_append_drop]
  have : na - (l.take nb).length = 0 := by omega
  rw [this, List.drop_zero]

/-- A `jsSlice` with nonnegative endpoints, split at an intermediate point. -/
theorem jsSlice_append (s : List Char) (a b c : Int)
    (h0 : 0 ≤ a) (hab : a ≤ b) (hbc : b ≤ c) :
    jsSlice s a c = jsSlice s a b ++ jsSlice s b c := by
  have hb0 : ¬ b < 0 := by omega
  have ha0 : ¬ a < 0 := by omega
  have hc0 : ¬ c < 0 := by omega
  rw [jsSlice, jsSlice, jsSlice]
  simp only [if_neg ha0, if_neg hb0, if_neg hc0]
  apply take_drop_split
  · omega
  · omega
  · omega

/-- Length of a fully in-range `jsSlice`. -/
theorem jsSlice_length (s : List Char) (a b : Int)
    (h0 : 0 ≤ a) (hab : a ≤ b) (hb : b ≤ (s.length : Int)) :
    ((jsSlice s a b).length : Int) = b - a := by
  have ha0 : ¬ a < 0 := by omega
  have hb0 : ¬ b < 0 := by omega
  rw [jsSlice]
  simp only [if_neg ha0, if_neg hb0]
  simp only [List.length_drop, List.length_take]
  omega

/-- Claim C7 (amended) — for consecutive windows of `chunkText` (on a text
longer than `maxChunkSize`, with `overlap ≤ maxChunkSize * 0.7`, looking at a
window that ends inside the text): the next window start is `end − overlap`;
the shared region `text[end − overlap .. end)` has exactly `overlap`
characters, is a suffix of the earlier untrimmed window and a prefix of the
later untrimmed window.  (The emitted chunks are whitespace-trimmed copies of
these windows, so the literally shared characters of the chunks can drop
below `overlap` even when no breakpoint intervenes — see the
counterexample.) -/
theorem c7_consecutive_windows_share_overlap
    (text : List Char) (m ov fuel : Nat) (ws : List (Int × Int)) (i : Nat)
    (hm : 1 ≤ m) (hov : (ov : ℚ) ≤ (m : ℚ) * (7 / 10))
    (hws : chunkWindows text m ov fuel = some ws)
    (hi : i + 1 < ws.length)
    (hend : (ws.get ⟨i, by omega⟩).2 ≤ (text.length : Int)) :
    (ws.get ⟨i + 1, hi⟩).1 = (ws.get ⟨i, by omega⟩).2 - (ov : Int) ∧
    ((jsSlice text (ws.get ⟨i + 1, hi⟩).1 (ws.get ⟨i, by omega⟩).2).length : Int)
      = (ov : Int) ∧
    jsSlice text (ws.get ⟨i, by omega⟩).1 (ws.get ⟨i, by omega⟩).2 =
      jsSlice text (ws.get ⟨i, by omega⟩).1 (ws.get ⟨i + 1, hi⟩).1 ++
      jsSlice text (ws.get ⟨i + 1, hi⟩).1 (ws.get ⟨i, by omega⟩).2 ∧
    jsSlice text (ws.get ⟨i + 1, hi⟩).1 (ws.get ⟨i + 1, hi⟩).2 =
      jsSlice text (ws.get ⟨i + 1, hi⟩).1 (ws.get ⟨i, by omega⟩).2 ++
      jsSlice text (ws.get ⟨i, by omega⟩).2 (ws.get ⟨i + 1, hi⟩).2 := by
  obtain ⟨hhead, hends, hchain, hmono⟩ :=
    chunkWindowsLoop_invariant text m ov hm hov fuel 0 ws hws
  have hi' : i < ws.length - 1 := by omega
  have hstep := List.chain'_iff_get.mp hchain i hi'
  set w1 := ws.get ⟨i, by omega⟩ with hw1
  set w2 := ws.get ⟨i + 1, hi⟩ with hw2
  have hmem1 : w1 ∈ ws := ws.get_mem _ _
  have hmem2 : w2 ∈ ws := ws.get_mem _ _
  have he1 : w1.2 = computeEnd text m w1.1 := hends w1 hmem1
  have he2 : w2.2 = computeEnd text m w2.1 := hends w2 hmem2
  have hs1 : (0 : Int) ≤ w1.1 := hmono w1 hmem1
  have hq1 : (w1.1 : ℚ) + (m : ℚ) * (7 / 10) < (w1.2 : ℚ) := by
    rw [he1]; exact_mod_cast computeEnd_lb text m hm w1.1
  have hq2 : (w2.1 : ℚ) + (m : ℚ) * (7 / 10) < (w2.2 : ℚ) := by
    rw [he2]; exact_mod_cast computeEnd_lb text m hm w2.1
  have hcast : (w2.1 : ℚ) = (w1.2 : ℚ) - (ov : ℚ) := by
    rw [hstep]; push_cast; ring
  have hA : w1.1 ≤ w2.1 := by
    have : (w1.1 : ℚ) < (w2.1 : ℚ) := by linarith
    exact_mod_cast le_of_lt (show (w1.1 : ℚ) < (w2.1 : ℚ) from this)
  have hB : (0 : Int) ≤ w2.1 := le_trans hs1 hA
  have hC : w2.1 ≤ w1.2 := by omega
  have hD : w1.2 ≤ w2.2 := by
    have : (w1.2 : ℚ) < (w2.2 : ℚ) := by linarith
    exact_mod_cast le_of_lt this
  refine ⟨hstep, ?_, ?_, ?_⟩
  · rw [jsSlice_length text w2.1 w1.2 hB hC hend]
    omega
  · exact jsSlice_append text w1.1 w2.1 w1.2 hs1 hA hC
  · exact jsSlice_append text w2.1 w1.2 w2.2 hB hC hD

theorem computeEnd_aaaa1 : computeEnd ['a', 'a', 'a', 'a'] 2 1 = 3 := by
  have hp : jsLastIndexOf ['a', 'a', 'a', 'a'] '.' 3 = -1 := by decide
  have hn : jsLastIndexOf ['a', 'a', 'a', 'a'] '\n' 3 = -1 := by decide
  have hs : jsLastIndexOf ['a', 'a', 'a', 'a'] ' ' 3 = -1 := by decide
  rw [computeEnd]
  norm_num [hp, hn, hs]

theorem computeEnd_aaaa2 : computeEnd ['a', 'a', 'a', 'a'] 2 2 = 4 := by
  rw [computeEnd]
  norm_num

theorem computeEnd_aaaa3 : computeEnd ['a', 'a', 'a', 'a'] 2 3 = 5 := by
  rw [computeEnd]
  norm_num

theorem chunkWindows_aaaa_eval :
    chunkWindows ['a', 'a', 'a', 'a'] 2 1 10 = some [(0, 2), (1, 3), (2, 4), (3, 5)] := by
  have s7 : chunkWindowsLoop ['a', 'a', 'a', 'a'] 2 1 7 3 = some [(3, 5)] := by
    rw [show (7 : Nat) = 6 + 1 from rfl, chunkWindowsLoop]
    norm_num [computeEnd_aaaa3]
  have s8 : chunkWindowsLoop ['a', 'a', 'a', 'a'] 2 1 8 2 = some [(2, 4), (3, 5)] := by
    rw [show (8 : Nat) = 7 + 1 from rfl, chunkWindowsLoop]
    norm_num [computeEnd_aaaa2, s7]
  have s9 : chunkWindowsLoop ['a', 'a', 'a', 'a'] 2 1 9 1 = some [(1, 3), (2, 4), (3, 5)] := by
    rw [show (9 : Nat) = 8 + 1 from rfl, chunkWindowsLoop]
    norm_num [computeEnd_aaaa1, s8]
  rw [chunkWindows, show (10 : Nat) = 9 + 1 from rfl, chunkWindowsLoop]
  norm_num [computeEnd_aaaa, s9]

/-- Witness for C7 on `"aaaa"` with `maxChunkSize = 2`, `overlap = 1`:
windows `[(0,2),(1,3),(2,4),(3,5)]`, looking at the first two. -/
theorem c7_consecutive_windows_share_overlap_witness :
    (1 ≤ 2) ∧ (((1 : Nat) : ℚ) ≤ ((2 : Nat) : ℚ) * (7 / 10)) ∧
    (chunkWindows ['a', 'a', 'a', 'a'] 2 1 10 =
      some [(0, 2), (1, 3), (2, 4), (3, 5)]) ∧
    (0 + 1 < ([(0, 2), (1, 3), (2, 4), (3, 5)] : List (Int × Int)).length) ∧
    ((2 : Int) ≤ ((['a', 'a', 'a', 'a'] : List Char).length : Int)) ∧
    ((1 : Int) = 2 - ((1 : Nat) : Int) ∧
      ((jsSlice ['a', 'a', 'a', 'a'] 1 2).length : Int) = ((1 : Nat) : Int) ∧
      jsSlice ['a', 'a', 'a', 'a'] 0 2 =
        jsSlice ['a', 'a', 'a', 'a'] 0 1 ++ jsSlice ['a', 'a', 'a', 'a'] 1 2 ∧
      jsSlice ['a', 'a', 'a', 'a'] 1 3 =
        jsSlice ['a', 'a', 'a', 'a'] 1 2 ++ jsSlice ['a', 'a', 'a', 'a'] 2 3) :=
  ⟨by norm_num, by norm_num, chunkWindows_aaaa_eval, by norm_num, by decide,
    c7_consecutive_windows_share_overlap ['a', 'a', 'a', 'a'] 2 1 10
      [(0, 2), (1, 3), (2, 4), (3, 5)] 0 (by norm_num) (by norm_num)
      chunkWindows_aaaa_eval (by norm_num) (by decide)⟩

theorem computeEnd_ab0 : computeEnd ("aaaaa bbbbbbbbbbbbb".data) 10 0 = 10 := by
  have hp : jsLastIndexOf ("aaaaa bbbbbbbbbbbbb".data) '.' 10 = -1 := by decide
  have hn : jsLastIndexOf ("aaaaa bbbbbbbbbbbbb".data) '\n' 10 = -1 := by decide
  have hs : jsLastIndexOf ("aaaaa bbbbbbbbbbbbb".data) ' ' 10 = 5 := by decide
  rw [computeEnd]
  norm_num [hp, hn, hs]

theorem computeEnd_ab5 : computeEnd ("aaaaa bbbbbbbbbbbbb".data) 10 5 = 15 := by
  have hp : jsLastIndexOf ("aaaaa bbbbbbbbbbbbb".data) '.' 15 = -1 := by decide
  have hn : jsLastIndexOf ("aaaaa bbbbbbbbbbbbb".data) '\n' 15 = -1 := by decide
  have hs : jsLastIndexOf ("aaaaa bbbbbbbbbbbbb".data) ' ' 15 = 5 := by decide
  rw [computeEnd]
  norm_num [hp, hn, hs]

theorem computeEnd_ab10 : computeEnd ("aaaaa bbbbbbbbbbbbb".data) 10 10 = 20 := by
  rw [computeEnd]
  norm_num

theorem computeEnd_ab15 : computeEnd ("aaaaa bbbbbbbbbbbbb".data) 10 15 = 25 := by
  rw [computeEnd]
  norm_num

theorem chunkWindows_ab_eval :
    chunkWindows ("aaaaa bbbbbbbbbbbbb".data) 10 5 20 =
      some [(0, 10), (5, 15), (10, 20), (15, 25)] := by
  have s17 : chunkWindowsLoop ("aaaaa bbbbbbbbbbbbb".data) 10 5 17 15 =
      some [(15, 25)] := by
    rw [show (17 : Nat) = 16 + 1 from rfl, chunkWindowsLoop, computeEnd_ab15]
    rw [if_pos
      (by decide : ((("aaaaa bbbbbbbbbbbbb".data : List Char).length : Int) ≤ 25 - (5 : Nat)))]
  have s18 : chunkWindowsLoop ("aaaaa bbbbbbbbbbbbb".data) 10 5 18 10 =
      some [(10, 20), (15, 25)] := by
    rw [show (18 : Nat) = 17 + 1 from rfl, chunkWindowsLoop, computeEnd_ab10]
    rw [if_neg
      (by decide : ¬ ((("aaaaa bbbbbbbbbbbbb".data : List Char).length : Int) ≤ 20 - (5 : Nat)))]
    rw [show (20 : Int) - (5 : Nat) = 15 from by decide, s17]
    rfl
  have s19 : chunkWindowsLoop ("aaaaa bbbbbbbbbbbbb".data) 10 5 19 5 =
      some [(5, 15), (10, 20), (15, 25)] := by
    rw [show (19 : Nat) = 18 + 1 from rfl, chunkWindowsLoop, computeEnd_ab5]
    rw [if_neg
      (by decide : ¬ ((("aaaaa bbbbbbbbbbbbb".data : List Char).length : Int) ≤ 15 - (5 : Nat)))]
    rw [show (15 : Int) - (5 : Nat) = 10 from by decide, s18]
    rfl
  rw [chunkWindows, show (20 : Nat) = 19 + 1 from rfl, chunkWindowsLoop, computeEnd_ab0]
  rw [if_neg
    (by decide : ¬ ((("aaaaa bbbbbbbbbbbbb".data : List Char).length : Int) ≤ 10 - (5 : Nat)))]
  rw [show (10 : Int) - (5 : Nat) = 5 from by decide, s19]
  rfl

/-- Claim C7 (counterexample) — on `"aaaaa bbbbbbbbbbbbb"` with
`maxChunkSize = 10`, `overlap = 5`, the first window uses the hard boundary
(`computeEnd = start + maxChunkSize = 10`, i.e. the breakpoint search does
*not* intervene), yet the first two emitted chunks literally share only 4
characters, not `overlap = 5`: the boundary space is removed by `trim`. -/
theorem c7_counterexample_trim_reduces_shared_overlap :
    chunkText ("aaaaa bbbbbbbbbbbbb".data) 10 5 20 =
      some ["aaaaa bbbb".data, "bbbbbbbbb".data, "bbbbbbbbb".data, "bbbb".data] ∧
    computeEnd ("aaaaa bbbbbbbbbbbbb".data) 10 0 = 10 ∧
    sharedOverlapCount ("aaaaa bbbb".data) ("bbbbbbbbb".data) = 4 := by
  refine ⟨?_, computeEnd_ab0, by decide⟩
  rw [chunkText, if_neg (by decide), chunkWindows_ab_eval]
  decide

/-- Claim C2 — if the batch embedding step fails, `addDocument` fails with
that error and performs no mutation: in the JavaScript original every store
mutation occurs after the `await generateBatchEmbeddings(...)`, so a
rejection propagates before any document, chunk, embedding or index entry is
added; here the call returns the error and no new store is produced, leaving
the caller's store untouched. -/
theorem c2_addDocument_atomic_on_embedding_failure
    (embedBatch : List String → Except String (List (List ℚ)))
    (s : VectorStore) (fileId : String) (meta : FileMetadata)
    (textChunks : List String) (e : String)
    (h : embedBatch textChunks = .error e) :
    addDocument embedBatch s fileId meta textChunks = .error e := by
  rw [addDocument, h]

/-- Witness for C2 with an embedder that always rejects. -/
theorem c2_addDocument_atomic_on_embedding_failure_witness :
    ((fun _ : List String =>
        (.error "boom" : Except String (List (List ℚ)))) ["a"] =
      .error "boom") ∧
    addDocument (fun _ => .error "boom") emptyStore "d1" "meta" ["a"] =
      .error "boom" :=
  ⟨rfl, c2_addDocument_atomic_on_embedding_failure
    (fun _ => .error "boom") emptyStore "d1" "meta" ["a"] "boom" rfl⟩

/-- Claim C9 — adding a document and then removing it restores the
empty-store observations: after `addDocument "d1" meta ["a","b"]` on the
empty store followed by `removeDocument "d1"`, `getStats` reports zero
documents and zero chunks and any search returns an empty sequence; and
`removeDocument` of an unknown id is a no-op. -/
theorem c9_round_trip_removal
    (embedBatch : List String → Except String (List (List ℚ)))
    (meta : FileMetadata) (s : VectorStore)
    (h : addDocument embedBatch emptyStore "d1" meta ["a", "b"] = .ok s)
    {Score : Type} [LinearOrder Score] (cfg : EmbedConfig)
    (sim : List ℚ → List ℚ → Score) (q : String) (k : Nat)
    (fid : Option String) (t : VectorStore) (otherId : String)
    (hno : hasDocument t otherId = false) :
    (getStats (removeDocument s "d1")).totalDocuments = 0 ∧
    (getStats (removeDocument s "d1")).totalChunks = 0 ∧
    search cfg sim (removeDocument s "d1") q k fid = .ok [] ∧
    removeDocument t otherId = t := by
  have hnone : jsMapGet t.documents otherId = none := by
    simp only [hasDocument, List.any_eq_false] at hno
    rw [jsMapGet, List.find?_eq_none.mpr hno]
    rfl
  rcases heq : embedBatch ["a", "b"] with e | embs
  · rw [addDocument, heq] at h
    simp at h
  · rw [addDocument, heq] at h
    simp only [Except.ok.injEq] at h
    subst h
    refine ⟨rfl, rfl, ?_, ?_⟩
    · cases fid with
      | none => rfl
      | some f => rfl
    · rw [removeDocument, hnone]

/-- Witness for C9 at a concrete ingestion in fallback mode. -/
theorem c9_round_trip_removal_witness :
    (addDocument embedBatchDemo emptyStore "d1" "meta" ["a", "b"] =
      .ok c9Store) ∧
    (hasDocument emptyStore "zz" = false) ∧
    ((getStats (removeDocument c9Store "d1")).totalDocuments = 0 ∧
      (getStats (removeDocument c9Store "d1")).totalChunks = 0 ∧
      search demoCfg (fun _ _ => (0 : ℚ)) (removeDocument c9Store "d1")
        "hello" 5 none = .ok [] ∧
      removeDocument emptyStore "zz" = emptyStore) :=
  ⟨rfl, rfl, c9_round_trip_removal embedBatchDemo "meta" c9Store rfl demoCfg
    (fun _ _ => (0 : ℚ)) "hello" 5 none emptyStore "zz" rfl⟩

/-- Claim C10 — refuted on the code: re-ingesting the same `fileId` leaves
the store invariant broken.  After adding `"d1"` with `["a","b"]` and again
with `["c"]`, the search index holds 3 entries while only 2 chunks are
stored (`indexSize ≠ totalChunks`), the index still contains the stale
entry `"d1_chunk_1"` and a duplicate of `"d1_chunk_0"`, while the stored
document only owns `["d1_chunk_0"]`. -/
theorem c10_repeated_ingestion_breaks_index_invariant :
    Except.map (fun s =>
        ((getStats s).indexSize, (getStats s).totalChunks,
          s.index.map (fun it => it.chunkId),
          (jsMapGet s.documents "d1").map (fun d => d.chunkIds)))
      c10Result =
    .ok (3, 2, ["d1_chunk_0", "d1_chunk_1", "d1_chunk_0"],
      some ["d1_chunk_0"]) := by
  rfl

theorem simLe_trans {Score : Type} [LinearOrder Score]
    (a b c : ScoredChunk Score) (hab : simLe a b = true)
    (hbc : simLe b c = true) : simLe a c = true := by
  simp only [simLe, decide_eq_true_eq] at *
  exact le_trans hbc hab

theorem simLe_total {Score : Type} [LinearOrder Score]
    (a b : ScoredChunk Score) : (simLe a b || simLe b a) = true := by
  simp only [simLe, Bool.or_eq_true, decide_eq_true_eq]
  exact (le_total b.similarity a.similarity)

/-- Two positions of a list, in order, form a sublist. -/
theorem pair_sublist_of_get {α : Type} (l : List α) (i j : Nat)
    (hij : i < j) (hj : j < l.length) :
    List.Sublist [l.get ⟨i, lt_trans hij hj⟩, l.get ⟨j, hj⟩] l := by
  have hi : i < l.length := lt_trans hij hj
  have hmem : l.get ⟨j, hj⟩ ∈ l.drop (i + 1) := by
    refine List.mem_iff_get.mpr ⟨⟨j - (i + 1), ?_⟩, ?_⟩
    · rw [List.length_drop]; omega
    · rw [List.get_drop']
      congr 1
      apply Fin.ext
      simp
      omega
  have h1 : List.Sublist [l.get ⟨i, hi⟩, l.get ⟨j, hj⟩]
      (l.get ⟨i, hi⟩ :: l.drop (i + 1)) :=
    (List.singleton_sublist.mpr hmem).cons₂ _
  have h2 : l.get ⟨i, hi⟩ :: l.drop (i + 1) = l.drop i :=
    (List.drop_eq_getElem_cons hi).symm
  exact (h2 ▸ h1).trans (List.drop_sublist i l)

/-- A two-element sublist identifies two positions in order. -/
theorem sublist_pair_get {α : Type} {a b : α} :
    ∀ {l : List α}, List.Sublist [a, b] l →
      ∃ (i j : Nat) (hi : i < l.length) (hj : j < l.length),
        i < j ∧ l.get ⟨i, hi⟩ = a ∧ l.get ⟨j, hj⟩ = b := by
  intro l
  induction l with
  | nil => intro h; exact absurd h (by simp)
  | cons x t ih =>
    intro h
    cases h with
    | cons _ h' =>
      obtain ⟨i, j, hi, hj, hij, ha, hb⟩ := ih h'
      exact ⟨i + 1, j + 1, by simpa using hi, by simpa using hj,
        by omega, ha, hb⟩
    | cons₂ _ h' =>
      have hbmem : b ∈ t := List.singleton_sublist.mp h'
      obtain ⟨⟨j, hjt⟩, hbj⟩ := List.mem_iff_get.mp hbmem
      exact ⟨0, j + 1, by simp, by simpa using hjt, by omega, rfl, hbj⟩

/-- Each scored candidate records its own position in `index`. -/
theorem scoredCandidates_get_index {Score : Type}
    (sim : List ℚ → List ℚ → Score) (qe : List ℚ)
    (chunks : List ChunkForSearch) (p : Nat)
    (hp : p < (scoredCandidates sim qe chunks).length) :
    ((scoredCandidates sim qe chunks).get ⟨p, hp⟩).index = p := by
  simp [scoredCandidates]

theorem scoredCandidates_nodup {Score : Type}
    (sim : List ℚ → List ℚ → Score) (qe : List ℚ)
    (chunks : List ChunkForSearch) :
    (scoredCandidates sim qe chunks).Nodup := by
  have hmap : (scoredCandidates sim qe chunks).map
      (fun r => r.index) = List.range chunks.length := by
    rw [scoredCandidates, List.map_map]
    rw [show ((fun (r : ScoredChunk Score) => r.index) ∘
      (fun p : Nat × ChunkForSearch =>
        ({ chunk := p.2, similarity := sim qe p.2.embedding, index := p.1 } :
          ScoredChunk Score))) = Prod.fst from rfl]
    exact List.enum_map_fst chunks
  exact List.Nodup.of_map _ (hmap ▸ List.nodup_range chunks.length)

/-- Every member of `scoredCandidates` sits at the position its `index`
names. -/
theorem scoredCandidates_mem_get {Score : Type}
    (sim : List ℚ → List ℚ → Score) (qe : List ℚ)
    (chunks : List ChunkForSearch) (x : ScoredChunk Score)
    (hx : x ∈ scoredCandidates sim qe chunks) :
    ∃ hxi : x.index < (scoredCandidates sim qe chunks).length,
      (scoredCandidates sim qe chunks).get ⟨x.index, hxi⟩ = x := by
  obtain ⟨⟨p, hp⟩, rfl⟩ := List.mem_iff_get.mp hx
  rw [scoredCandidates_get_index sim qe chunks p hp]
  exact ⟨hp, rfl⟩

/-- The ranked list is sorted descending by similarity, ties broken by the
original position: the correctness of the stable sort. -/
theorem rankChunks_pairwise_lexLe {Score : Type} [LinearOrder Score]
    (sim : List ℚ → List ℚ → Score) (qe : List ℚ)
    (chunks : List ChunkForSearch) :
    (rankChunks sim qe chunks).Pairwise lexLe := by
  have htrans : ∀ a b c : ScoredChunk Score,
      simLe a b = true → simLe b c = true → simLe a c = true := simLe_trans
  have htotal : ∀ a b : ScoredChunk Score,
      (simLe a b || simLe b a) = true := simLe_total
  have hsorted := @List.sorted_mergeSort (ScoredChunk Score) simLe htrans htotal
    (scoredCandidates sim qe chunks)
  have hperm := List.mergeSort_perm (scoredCandidates sim qe chunks) simLe
  have hnodup : ((scoredCandidates sim qe chunks).mergeSort simLe).Nodup :=
    hperm.symm.nodup (scoredCandidates_nodup sim qe chunks)
  rw [rankChunks, List.pairwise_iff_get]
  intro i j hij
  have hs := List.pairwise_iff_get.mp hsorted i j hij
  rw [simLe, decide_eq_true_eq] at hs
  rcases lt_or_eq_of_le hs with hlt | heqsim
  · exact Or.inl hlt
  · refine Or.inr ⟨heqsim, ?_⟩
    by_contra hgt
    push_neg at hgt
    obtain ⟨hxi, hxget⟩ := scoredCandidates_mem_get sim qe chunks
      (((scoredCandidates sim qe chunks).mergeSort simLe).get i)
      (hperm.subset (List.get_mem _ i.val i.isLt))
    obtain ⟨hyi, hyget⟩ := scoredCandidates_mem_get sim qe chunks
      (((scoredCandidates sim qe chunks).mergeSort simLe).get j)
      (hperm.subset (List.get_mem _ j.val j.isLt))
    have hpair : List.Sublist
        [((scoredCandidates sim qe chunks).mergeSort simLe).get j,
          ((scoredCandidates sim qe chunks).mergeSort simLe).get i]
        (scoredCandidates sim qe chunks) := by
      have hps := pair_sublist_of_get (scoredCandidates sim qe chunks)
        (((scoredCandidates sim qe chunks).mergeSort simLe).get j).index
        (((scoredCandidates sim qe chunks).mergeSort simLe).get i).index
        hgt hxi
      rwa [hyget, hxget] at hps
    have hpw : List.Pairwise (fun a b => simLe a b = true)
        [((scoredCandidates sim qe chunks).mergeSort simLe).get j,
          ((scoredCandidates sim qe chunks).mergeSort simLe).get i] := by
      refine List.pairwise_cons.mpr ⟨?_, by simp⟩
      intro z hz
      simp only [List.mem_singleton] at hz
      subst hz
      rw [simLe, decide_eq_true_eq]
      exact le_of_eq heqsim.symm
    have hsub := List.sublist_mergeSort htrans htotal hpw hpair
    obtain ⟨p, q, hp, hq, hpq, hpy, hqx⟩ := sublist_pair_get hsub
    have hpj : (⟨p, hp⟩ : Fin _) = j :=
      (List.Nodup.get_inj_iff hnodup).mp hpy
    have hqi : (⟨q, hq⟩ : Fin _) = i :=
      (List.Nodup.get_inj_iff hnodup).mp hqx
    have hp' : p = (j : Nat) := congrArg Fin.val hpj
    have hq' : q = (i : Nat) := congrArg Fin.val hqi
    have hij' : (i : Nat) < (j : Nat) := Fin.lt_def.mp hij
    omega

/-- A non-blank query always embeds successfully (fallback or remote). -/
theorem generateEmbedding_ok (cfg : EmbedConfig) (q : String)
    (hq : q ≠ "") (ht : jsTrim q ≠ "") :
    ∃ qe, generateEmbedding cfg q = .ok qe := by
  obtain ⟨sf, key, rem⟩ := cfg
  rw [generateEmbedding, if_neg (by tauto)]
  cases key with
  | none => exact ⟨_, rfl⟩
  | some k =>
    cases hr : rem (jsTrim q) with
    | ok v => exact ⟨v, by simp [hr]⟩
    | error e => exact ⟨generateSimpleEmbedding sf (jsTrim q), by simp [hr]⟩

/-- Claim C1 (amended) — for a non-empty (possibly file-filtered) index and
a non-blank query, `search` succeeds: the full ranking is a permutation of
all scored candidates, sorted descending by similarity with ties broken by
original insertion order (`lexLe`), and the returned sequence is its
`topK`-prefix joined with chunk/document records; the returned length is
`min topK (number of candidates)` and every returned entry scores at least
as high as every candidate left out.  `search` returns `.ok []` (not an
error) whenever the index is empty or the file filter matches nothing.
(For an empty-string query the code returns `[]` instead of the ranked
results — see the counterexample.) -/
theorem c1_search_returns_sorted_topk {Score : Type} [LinearOrder Score]
    (cfg : EmbedConfig) (sim : List ℚ → List ℚ → Score) (s : VectorStore)
    (q : String) (topK : Nat) (fid : Option String)
    (hq : q ≠ "") (ht : jsTrim q ≠ "") (hne : searchCandidates s fid ≠ []) :
    ∃ qe, generateEmbedding cfg q = .ok qe ∧
      search cfg sim s q topK fid =
        .ok (((rankChunks sim qe (chunksForSearch s fid)).take topK).map
          (joinResult s)) ∧
      (rankChunks sim qe (chunksForSearch s fid)).Perm
        (scoredCandidates sim qe (chunksForSearch s fid)) ∧
      (rankChunks sim qe (chunksForSearch s fid)).Pairwise lexLe ∧
      ((rankChunks sim qe (chunksForSearch s fid)).take topK).length =
        min topK (searchCandidates s fid).length ∧
      (∀ x ∈ (rankChunks sim qe (chunksForSearch s fid)).take topK,
        ∀ y ∈ (rankChunks sim qe (chunksForSearch s fid)).drop topK,
          y.similarity ≤ x.similarity) ∧
      (∀ (s' : VectorStore) (q' : String) (k' : Nat) (fid' : Option String),
        searchCandidates s' fid' = [] → search cfg sim s' q' k' fid' = .ok []) := by
  obtain ⟨qe, hqe⟩ := generateEmbedding_ok cfg q hq ht
  have hcs : chunksForSearch s fid ≠ [] := fun h => hne (List.map_eq_nil_iff.mp h)
  refine ⟨qe, hqe, ?_, List.mergeSort_perm _ _,
    rankChunks_pairwise_lexLe sim qe _, ?_, ?_, ?_⟩
  · rw [search, if_neg (fun h => hne (List.length_eq_zero.mp h))]
    rw [findSimilarChunks, if_neg (by rintro (h | h); exacts [hq h, hcs h])]
    rw [hqe]
  · rw [List.length_take, rankChunks, List.length_mergeSort,
      scoredCandidates, List.length_map, List.enum_length,
      chunksForSearch, List.length_map]
  · intro x hx y hy
    have hpw := rankChunks_pairwise_lexLe sim qe (chunksForSearch s fid)
    rw [← List.take_append_drop topK
      (rankChunks sim qe (chunksForSearch s fid))] at hpw
    have hsplit := (List.pairwise_append.mp hpw).2.2
    rcases hsplit x hx y hy with hlt | ⟨heq2, -⟩
    · exact le_of_lt hlt
    · exact le_of_eq heq2
  · intro s' q' k' fid' hempty
    rw [search, if_pos (by rw [hempty]; rfl)]

/-- Witness for C1 on the one-entry store with query `"alpha"`. -/
theorem c1_search_returns_sorted_topk_witness :
    ("alpha" ≠ "") ∧ (jsTrim "alpha" ≠ "") ∧
    (searchCandidates demoStore none ≠ []) ∧
    (∃ qe, generateEmbedding demoCfg "alpha" = .ok qe ∧
      search demoCfg simZero demoStore "alpha" 5 none =
        .ok (((rankChunks simZero qe (chunksForSearch demoStore none)).take 5).map
          (joinResult demoStore)) ∧
      (rankChunks simZero qe (chunksForSearch demoStore none)).Perm
        (scoredCandidates simZero qe (chunksForSearch demoStore none)) ∧
      (rankChunks simZero qe (chunksForSearch demoStore none)).Pairwise lexLe ∧
      ((rankChunks simZero qe (chunksForSearch demoStore none)).take 5).length =
        min 5 (searchCandidates demoStore none).length ∧
      (∀ x ∈ (rankChunks simZero qe (chunksForSearch demoStore none)).take 5,
        ∀ y ∈ (rankChunks simZero qe (chunksForSearch demoStore none)).drop 5,
          y.similarity ≤ x.similarity) ∧
      (∀ (s' : VectorStore) (q' : String) (k' : Nat) (fid' : Option String),
        searchCandidates s' fid' = [] →
          search demoCfg simZero s' q' k' fid' = .ok [])) :=
  ⟨by decide, by decide, by decide,
    c1_search_returns_sorted_topk demoCfg simZero demoStore "alpha" 5 none
      (by decide) (by decide) (by decide)⟩

/-- Claim C1 (counterexample) — the index holds one entry and `topK = 1`,
yet the empty-string query returns the empty sequence instead of the
highest-similarity entry: `findSimilarChunks` short-circuits on `!query`. -/
theorem c1_counterexample_empty_query_returns_empty :
    search demoCfg simZero demoStore "" 1 none = .ok [] ∧
    (searchCandidates demoStore none).length = 1 :=
  ⟨rfl, rfl⟩

theorem leadsWith_append (pat post : List Char) :
    leadsWith pat (pat ++ post) = true := by
  induction pat with
  | nil => rfl
  | cons a as ih => simp [leadsWith, ih]

theorem containsSub_of_append (pat pre post : List Char) :
    containsSub pat (pre ++ (pat ++ post)) = true := by
  rw [containsSub, List.any_eq_true]
  refine ⟨pre.length, List.mem_range.mpr (by simp; omega), ?_⟩
  rw [List.drop_left]
  exact leadsWith_append pat post

theorem containsSub_of_string_split (pat s pre post : String)
    (h : s = pre ++ (pat ++ post)) : containsSub pat.data s.data = true := by
  rw [h, String.data_append pre (pat ++ post), String.data_append pat post]
  exact containsSub_of_append pat.data pre.data post.data

/-- Claim C8 (amended) — the RAG prompt contains the role/instructions
framing, the current date, the context block built from the retrieved
chunks, and the question.  It does *not* contain the conversation history:
`createRAGChain`'s template has no history placeholder and
`answerWithLangChain` receives no history argument — see the
counterexample. -/
theorem c8_prompt_contains_role_date_context_question
    (date : String) (chunks : List RagChunk) (question : String) :
    containsSub ("You are Ragnarok, an AI assistant that can answer questions using both your general knowledge and provided document context.".data)
      (createRAGPrompt date chunks question).data = true ∧
    containsSub date.data (createRAGPrompt date chunks question).data = true ∧
    containsSub (buildRAGContext chunks).data
      (createRAGPrompt date chunks question).data = true ∧
    containsSub question.data
      (createRAGPrompt date chunks question).data = true := by
  refine ⟨?_, ?_, ?_, ?_⟩
  · refine containsSub_of_string_split _ _ "\n"
      ("\n\nToday's date: " ++ date ++ ragTplContext ++ buildRAGContext chunks ++
        ragTplQuestion ++ question ++ ragTplClose) ?_
    rw [createRAGPrompt, show ragTplHead =
      "\n" ++ ("You are Ragnarok, an AI assistant that can answer questions using both your general knowledge and provided document context." ++ "\n\nToday's date: ")
      from by decide]
    simp only [String.append_assoc]
  · refine containsSub_of_string_split _ _ ragTplHead
      (ragTplContext ++ buildRAGContext chunks ++ ragTplQuestion ++ question ++
        ragTplClose) ?_
    rw [createRAGPrompt]
    simp only [String.append_assoc]
  · refine containsSub_of_string_split _ _ (ragTplHead ++ date ++ ragTplContext)
      (ragTplQuestion ++ question ++ ragTplClose) ?_
    rw [createRAGPrompt]
    simp only [String.append_assoc]
  · refine containsSub_of_string_split _ _
      (ragTplHead ++ date ++ ragTplContext ++ buildRAGContext chunks ++
        ragTplQuestion) ragTplClose ?_
    rw [createRAGPrompt]
    simp only [String.append_assoc]

set_option maxRecDepth 4000 in
/-- Claim C8 (counterexample) — for the conversation history
with one turn of role "user" and content "xyzzy", the constructed prompt contains
neither the role-tagged turn `"user: xyzzy"` nor even the turn's content
`"xyzzy"`: the prompt is built from the date, context and question only, so
the history never reaches it. -/
theorem c8_counterexample_history_not_in_prompt :
    containsSub ("user: xyzzy".data)
      (createRAGPrompt "Monday, January 1, 2024" [ragDemoChunk]
        "What did the cat do?").data = false ∧
    containsSub ("xyzzy".data)
      (createRAGPrompt "Monday, January 1, 2024" [ragDemoChunk]
        "What did the cat do?").data = false := by
  constructor <;> decide

end Ragnarok
